import Mathlib

/-!
Shallow embedding of the Solana NFT metadata updater (yashvikram30/metadata_script).

Strings are modelled as their byte sequences (`List Nat`, each entry a byte
value < 256), matching the Buffer-level view the codec works at.  Wall-clock
timestamps are not modelled (they carry no logic).  External collaborators
(`@solana/web3.js` connection, wallet, base58 parsing) are modelled as opaque
oracle functions in `SolanaEnv`; everything else is translated line by line
from the TypeScript source.
-/

namespace MetadataScript

/-- Byte strings: the model of both JS strings (via their UTF-8 bytes) and
Buffers. -/
abbrev Bytes := List Nat

/-! ## RecordCodec (src/metadataUpdater.ts) -/

/-- Little-endian 4-byte encoding of a length, as produced by
`Buffer.writeUInt32LE` in `encodeString`. -/
def toLE4 (n : Nat) : Bytes :=
  [n % 256, n / 256 % 256, n / 65536 % 256, n / 16777216 % 256]

/-- `encodeString` (metadataUpdater.ts:94-99): 4-byte little-endian length
prefix followed by the UTF-8 bytes, no terminator. -/
def encodeString (s : Bytes) : Bytes :=
  toLE4 s.length ++ s

/-- JS `Buffer.slice(start, end)`: clamps silently, never throws. -/
def jsSlice (data : Bytes) (s e : Nat) : Bytes :=
  (data.drop s).take (e - s)

/-- JS `Buffer.readUInt32LE(offset)`: throws `ERR_OUT_OF_RANGE` (here `none`)
when fewer than 4 bytes remain at `offset`; otherwise assembles the 4 bytes
at `offset` little-endian.  (The wildcard arm is unreachable: the bound check
guarantees at least 4 bytes remain.) -/
def readUInt32LE (data : Bytes) (off : Nat) : Option Nat :=
  if off + 4 ≤ data.length then
    match data.drop off with
    | b0 :: b1 :: b2 :: b3 :: _ =>
      some (b0 + 256 * b1 + 65536 * b2 + 16777216 * b3)
    | _ => none
  else none

/-- JS `.replace(/\0/g, '')` applied at decode time: removes every NUL. -/
def stripNul (s : Bytes) : Bytes :=
  s.filter (fun b => b ≠ 0)

/-- The decoded on-chain metadata record (the value `fetchCurrentMetadata`
returns when everything succeeds). -/
structure ChainMeta where
  name : Bytes
  symbol : Bytes
  uri : Bytes
  updateAuthority : Bytes
deriving DecidableEq, Repr

/-- The account-data parsing inside `fetchCurrentMetadata`
(metadataUpdater.ts:119-154): skip 1 key byte, read 32-byte authority
(`new PublicKey` throws unless exactly 32 bytes), skip 32-byte mint, then
three strings each behind a 4-byte little-endian length.  `none` models a
thrown exception (caught by the enclosing try/catch in the source). -/
def decodeMetadata (data : Bytes) : Option ChainMeta :=
  let authority := jsSlice data 1 33
  if authority.length = 32 then
    match readUInt32LE data 65 with
    | none => none
    | some nameLen =>
      let name := jsSlice data 69 (69 + nameLen)
      match readUInt32LE data (69 + nameLen) with
      | none => none
      | some symbolLen =>
        let symbol := jsSlice data (73 + nameLen) (73 + nameLen + symbolLen)
        match readUInt32LE data (73 + nameLen + symbolLen) with
        | none => none
        | some uriLen =>
          let uri := jsSlice data (77 + nameLen + symbolLen)
            (77 + nameLen + symbolLen + uriLen)
          some { name := stripNul name, symbol := stripNul symbol,
                 uri := stripNul uri, updateAuthority := authority }
  else none

/-- Synthetic account bytes in the exact layout `decodeMetadata` reads:
1 key byte, 32-byte authority, 32-byte mint key, then the three strings in
the codec's own `encodeString` encoding. -/
def syntheticAccountBytes (key : Nat) (authority mintKey : Bytes)
    (name symbol uri : Bytes) : Bytes :=
  key :: (authority ++ mintKey
    ++ encodeString name ++ encodeString symbol ++ encodeString uri)

/-! ## DiffEngine (`isMetadataDifferent`, metadataUpdater.ts:162-171) -/

/-- JS whitespace recognised by `String.prototype.trim` (ASCII part; the
strings handled here are ASCII metadata fields). -/
def isWs (b : Nat) : Bool :=
  b == 9 || b == 10 || b == 11 || b == 12 || b == 13 || b == 32

/-- JS `String.prototype.trim`: strip whitespace from both ends. -/
def jsTrim (s : Bytes) : Bytes :=
  ((s.dropWhile isWs).reverse.dropWhile isWs).reverse

/-- A manifest record (`NFTMetadata` in types.ts). -/
structure NFTMetadata where
  mint : Bytes
  name : Bytes
  symbol : Bytes
  uri : Bytes
deriving DecidableEq, Repr

/-- `isMetadataDifferent` (metadataUpdater.ts:162-171): field-wise comparison
after trimming, any difference yields true. -/
def isMetadataDifferent (current : ChainMeta) (original : NFTMetadata) : Bool :=
  jsTrim current.name ≠ jsTrim original.name
    || jsTrim current.symbol ≠ jsTrim original.symbol
    || jsTrim current.uri ≠ jsTrim original.uri

/-! ## RetryExecutor (`retryWithBackoff`, utils.ts:66-87) -/

/-- Observable behaviour of one `retryWithBackoff` run: the settled value,
how many times the wrapped operation was invoked, and the total backoff
delay slept. -/
structure RetryResult (E T : Type) where
  result : Except E T
  calls : Nat
  totalDelay : Nat
deriving Repr

/-- The loop body of `retryWithBackoff`, with `remaining = maxRetries -
attempt` made structural so it computes.  The wrapped operation is indexed by
the attempt number so flaky operations can be expressed. -/
def retryGo {E T : Type} (fn : Nat → Except E T) (baseDelay : Nat) :
    Nat → Nat → RetryResult E T
  | attempt, 0 =>
    match fn attempt with
    | .ok v => ⟨.ok v, 1, 0⟩
    | .error e => ⟨.error e, 1, 0⟩
  | attempt, remaining + 1 =>
    match fn attempt with
    | .ok v => ⟨.ok v, 1, 0⟩
    | .error _ =>
      let rest := retryGo fn baseDelay (attempt + 1) remaining
      ⟨rest.result, rest.calls + 1, rest.totalDelay + baseDelay * 2 ^ attempt⟩

/-- `retryWithBackoff(fn, maxRetries, baseDelay)` (utils.ts:66-87): attempts
`fn` for `attempt = 0 .. maxRetries`; on failure before the last attempt
sleeps `baseDelay * 2^attempt`; after the last failure rethrows the last
error. -/
def retryWithBackoff {E T : Type} (fn : Nat → Except E T)
    (maxRetries baseDelay : Nat) : RetryResult E T :=
  retryGo fn baseDelay 0 maxRetries

/-! ## UpdateEngine (`updateNFTMetadata`, metadataUpdater.ts:185-307) -/

/-- The `status` field of a `ProcessResult` (types.ts). -/
inductive RStatus
  | updated
  | skipped
  | errored
deriving DecidableEq, Repr

/-- The data carried by the human-readable `error` message of a failed
`ProcessResult`.  `fetchFailed` renders as "Failed to fetch current
metadata"; `authorityMismatch e f` renders as "Update authority mismatch.
Expected: <e>, Found: <f>"; `caught e` is `error.message` of an exception
caught by the outer try/catch (in practice: a submission error rethrown by
`retryWithBackoff`). -/
inductive FailReason
  | fetchFailed
  | authorityMismatch (expected found : Bytes)
  | caught (e : Nat)
deriving DecidableEq, Repr

/-- `oldValues` / `newValues` of a `ProcessResult`. -/
structure Values where
  name : Bytes
  symbol : Bytes
  uri : Bytes
deriving DecidableEq, Repr

/-- `ProcessResult` (types.ts); the wall-clock `timestamp` field is not
modelled. -/
structure ProcessResult where
  mint : Bytes
  status : RStatus
  action : Option String := none
  oldValues : Option Values := none
  newValues : Option Values := none
  error : Option FailReason := none
  transactionSignature : Option Nat := none
deriving DecidableEq, Repr

/-- External collaborators, per record: `parsePubKey` models the
`new PublicKey(string)` constructor (`none` = it throws); `getAccountInfo`
models `connection.getAccountInfo` for this record's metadata account,
indexed by the attempt number (`Except.error` = network throw, `some bytes` =
raw account data, `none` = account absent); `sendTx` models
`sendAndConfirmTransaction`, indexed by attempt (`Except.error` = submission
throw, `ok` = confirmed signature). -/
structure SolanaEnv where
  parsePubKey : Bytes → Option Bytes
  getAccountInfo : Nat → Except Nat (Option Bytes)
  sendTx : Nat → Except Nat Nat

/-- Observable behaviour of one `updateNFTMetadata` call: `result` is
`.ok r` when the returned promise resolves with the `ProcessResult` `r` and
`.error ()` when an exception escapes the function (the promise rejects);
`fetchCalls` counts invocations of `fetchCurrentMetadata`, `submitCalls`
counts invocations of `sendAndConfirmTransaction`. -/
structure UpdateTrace where
  result : Except Unit ProcessResult
  fetchCalls : Nat
  submitCalls : Nat
deriving Repr

/-- `fetchCurrentMetadata` (metadataUpdater.ts:107-155): the whole body sits
in a try/catch that returns `null` on any error, so a network throw from
`getAccountInfo`, an absent account, and a decode throw all come out as
`none`; this function itself never throws. -/
def fetchCurrentMetadata (getAccountInfo : Nat → Except Nat (Option Bytes))
    (attempt : Nat) : Option ChainMeta :=
  match getAccountInfo attempt with
  | .error _ => none
  | .ok none => none
  | .ok (some data) => decodeMetadata data

/-- `updateNFTMetadata` (metadataUpdater.ts:185-307).  Note that
`const mint = new PublicKey(metadata.mint)` runs BEFORE the try block, so an
unparsable mint escapes as an exception (`.error ()`); everything inside the
try is converted to an error-status `ProcessResult` by the catch. -/
def updateNFTMetadata (env : SolanaEnv) (walletPub : Bytes)
    (metadata : NFTMetadata) (dryRun : Bool) (maxRetries retryDelayMs : Nat) :
    UpdateTrace :=
  match env.parsePubKey metadata.mint with
  | none => ⟨.error (), 0, 0⟩
  | some _mint =>
    let fetchRun := retryWithBackoff
      (fun attempt =>
        (.ok (fetchCurrentMetadata env.getAccountInfo attempt) :
          Except Nat (Option ChainMeta)))
      maxRetries retryDelayMs
    match fetchRun.result with
    | .error e =>
      ⟨.ok { mint := metadata.mint, status := .errored,
             error := some (.caught e) }, fetchRun.calls, 0⟩
    | .ok none =>
      ⟨.ok { mint := metadata.mint, status := .errored,
             error := some .fetchFailed }, fetchRun.calls, 0⟩
    | .ok (some current) =>
      if current.updateAuthority ≠ walletPub then
        ⟨.ok { mint := metadata.mint, status := .errored,
               error := some (.authorityMismatch walletPub
                 current.updateAuthority) }, fetchRun.calls, 0⟩
      else if ¬ isMetadataDifferent current metadata then
        ⟨.ok { mint := metadata.mint, status := .skipped,
               action := some "metadata already matches" }, fetchRun.calls, 0⟩
      else if dryRun then
        ⟨.ok { mint := metadata.mint, status := .updated,
               action := some "dry run - would update",
               oldValues := some ⟨current.name, current.symbol, current.uri⟩,
               newValues := some ⟨metadata.name, metadata.symbol, metadata.uri⟩ },
         fetchRun.calls, 0⟩
      else
        let submitRun := retryWithBackoff env.sendTx maxRetries retryDelayMs
        match submitRun.result with
        | .error e =>
          ⟨.ok { mint := metadata.mint, status := .errored,
                 error := some (.caught e) }, fetchRun.calls, submitRun.calls⟩
        | .ok sig =>
          ⟨.ok { mint := metadata.mint, status := .updated,
                 oldValues := some ⟨current.name, current.symbol, current.uri⟩,
                 newValues := some ⟨metadata.name, metadata.symbol, metadata.uri⟩,
                 transactionSignature := some sig },
           fetchRun.calls, submitRun.calls⟩

/-! ## Cost calculation (`calculateTotalCost`, metadataUpdater.ts:358-364) -/

/-- The hardcoded default average fee per transaction, 0.000005 SOL. -/
def avgFeePerTx : ℚ := 5 / 1000000

/-- `calculateTotalCost(results)` with the default fee argument: count the
results with status `updated` that carry a (truthy) transaction signature,
times the average-fee constant. -/
def calculateTotalCost (results : List ProcessResult) : ℚ :=
  ((results.filter
      (fun r => r.status == RStatus.updated && r.transactionSignature.isSome)).length
    : ℚ) * avgFeePerTx

/-! ## BatchOrchestrator (`main`, index.ts; checkpoint helpers, utils.ts)

For the orchestrator only the mint and the status of each `ProcessResult`
matter, so the per-record engine is abstracted as a fixed outcome function
`Bytes → RStatus` — the same function for an interrupted run and for its
resumption, modelling an unchanged remote ledger. -/

/-- The `summary` field of a checkpoint (types.ts `Checkpoint.summary`). -/
structure CkptSummary where
  processed : Nat
  updated : Nat
  skipped : Nat
  failed : Nat
deriving DecidableEq, Repr

/-- `Checkpoint` (types.ts); the wall-clock `timestamp` is not modelled. -/
structure Checkpoint where
  lastProcessedIndex : Nat
  processedMints : List Bytes
  summary : CkptSummary
deriving DecidableEq, Repr

/-- The mutable counters of `main`'s processing loop, plus a ghost log of
every checkpoint passed to `saveCheckpoint` (the file on disk is the last
entry). -/
structure RunState where
  processedCount : Nat
  updatedCount : Nat
  skippedCount : Nat
  failedCount : Nat
  processedMints : List Bytes
  failedMints : List Bytes
  savedCheckpoints : List Checkpoint
deriving DecidableEq, Repr

/-- `processBatch` (metadataUpdater.ts:318-350), abstracted to the mint and
status of each result (each result's `mint` equals the record's mint by
construction of `updateNFTMetadata`). -/
def processBatch (outcome : Bytes → RStatus) (batch : List Bytes) :
    List (Bytes × RStatus) :=
  batch.map (fun m => (m, outcome m))

/-- One iteration of `main`'s `for (const result of results)` counter loop
(index.ts). -/
def tallyResult (st : RunState) (r : Bytes × RStatus) : RunState :=
  { st with
    processedCount := st.processedCount + 1,
    processedMints := st.processedMints ++ [r.1],
    updatedCount :=
      if r.2 = RStatus.updated then st.updatedCount + 1 else st.updatedCount,
    skippedCount :=
      if r.2 = RStatus.skipped then st.skippedCount + 1 else st.skippedCount,
    failedCount :=
      if r.2 = RStatus.errored then st.failedCount + 1 else st.failedCount,
    failedMints :=
      if r.2 = RStatus.errored then st.failedMints ++ [r.1] else st.failedMints }

/-- `main`'s counter loop over a batch's results. -/
def tallyResults (st : RunState) (results : List (Bytes × RStatus)) : RunState :=
  results.foldl tallyResult st

/-- The checkpoint object `main` builds when it saves (index.ts):
`lastProcessedIndex = startIndex + processedCount - 1`, the current
`processedMints`, and the current counters. -/
def mkCheckpoint (startIndex : Nat) (st : RunState) : Checkpoint :=
  { lastProcessedIndex := startIndex + st.processedCount - 1,
    processedMints := st.processedMints,
    summary := ⟨st.processedCount, st.updatedCount, st.skippedCount,
      st.failedCount⟩ }

/-- The `if (processedCount % config.checkpointInterval === 0)` save step,
executed once per batch, after the batch's results are tallied.  (With
`checkpointInterval = 0` the JS comparison is `NaN === 0`, i.e. no save.) -/
def maybeSaveCheckpoint (startIndex interval : Nat) (st : RunState) : RunState :=
  if 0 < interval ∧ st.processedCount % interval = 0 then
    { st with savedCheckpoints :=
        st.savedCheckpoints ++ [mkCheckpoint startIndex st] }
  else st

/-- `main`'s batch loop `for (let i = 0; i < metadata.length; i +=
config.batchSize)`, made structural on a fuel that starts at the list length
(each step consumes at least one record for `batchSize ≥ 1`, so the fuel
never runs out). -/
def runChunksGo (outcome : Bytes → RStatus)
    (startIndex batchSize interval : Nat) :
    Nat → List Bytes → RunState → RunState
  | _, [], st => st
  | 0, _ :: _, st => st
  | fuel + 1, m :: rest, st =>
    let batch := m :: rest.take (batchSize - 1)
    let st1 := tallyResults st (processBatch outcome batch)
    let st2 := maybeSaveCheckpoint startIndex interval st1
    runChunksGo outcome startIndex batchSize interval fuel
      (rest.drop (batchSize - 1)) st2

/-- `main`'s batch loop over the whole (post-filter, post-slice) record
list. -/
def runChunks (outcome : Bytes → RStatus) (startIndex batchSize interval : Nat)
    (metadata : List Bytes) (st : RunState) : RunState :=
  runChunksGo outcome startIndex batchSize interval metadata.length metadata st

/-- The counters as `main` initialises them: `processedCount = 0`,
updated/skipped/failed seeded from `previousResults` (the loaded checkpoint's
summary, or zeros). -/
def initState (prev : CkptSummary) : RunState :=
  ⟨0, prev.updated, prev.skipped, prev.failed, [], [], []⟩

/-- Result of one `main` invocation: the final loop state, the computed
`startIndex`, and whether `deleteCheckpoint` was called at the end. -/
structure MainRun where
  state : RunState
  startIndex : Nat
  checkpointDeleted : Bool
deriving DecidableEq, Repr

/-- The tail of `main` after `startIndex` / `previousResults` / filtering are
settled: `metadata = filtered.slice(startIndex)`; an empty list returns early
(before the loop and before any checkpoint deletion); otherwise the batch
loop runs and the checkpoint is deleted exactly when `failedCount === 0`. -/
def mainGo (outcome : Bytes → RStatus) (startIndex batchSize interval : Nat)
    (filtered : List Bytes) (prev : CkptSummary) : MainRun :=
  let metadata := filtered.drop startIndex
  if metadata.isEmpty then
    ⟨initState prev, startIndex, false⟩
  else
    let final := runChunks outcome startIndex batchSize interval metadata
      (initState prev)
    ⟨final, startIndex, final.failedCount == 0⟩

/-- `main` (index.ts), from the checkpoint-loading step onwards.  With
`resume` set and a checkpoint present: `startIndex = lastProcessedIndex + 1`,
previous tallies are seeded from the checkpoint, and records whose mint is in
`processedMints` are filtered out — after which `main` ADDITIONALLY slices
the filtered list from `startIndex` (see `mainGo`). -/
def mainRun (outcome : Bytes → RStatus) (allMetadata : List Bytes)
    (resume : Bool) (cp : Option Checkpoint) (batchSize interval : Nat) :
    MainRun :=
  match resume, cp with
  | true, some c =>
    let filtered :=
      allMetadata.filter (fun m => !(c.processedMints.contains m))
    mainGo outcome (c.lastProcessedIndex + 1) batchSize interval filtered
      c.summary
  | _, _ => mainGo outcome 0 batchSize interval allMetadata ⟨0, 0, 0, 0⟩

/-! ## Concrete scenario data used by witnesses and counterexamples -/

/-- Whether an `Except` value is a failure. -/
def isError {E T : Type} : Except E T → Bool
  | .error _ => true
  | .ok _ => false

/-- A concrete flaky operation: fails on attempts 0 and 1, succeeds on
attempt 2 with value 7. -/
def retryWitnessFn : Nat → Except Nat Nat :=
  fun a => if a < 2 then .error a else .ok 7

/-- Well-formed synthetic account bytes for name `"a"`, symbol `"b"`,
uri `"cd"` (81 bytes in total). -/
def witnessAccountBytes : Bytes :=
  syntheticAccountBytes 4 (List.replicate 32 1) (List.replicate 32 2)
    [97] [98] [99, 100]

/-- `witnessAccountBytes` with its final byte missing: the declared uri
length (2) exceeds the remaining bytes (1). -/
def decodeShortRaw : Bytes := witnessAccountBytes.dropLast

/-- An environment whose `new PublicKey(mint)` always throws. -/
def badMintEnv : SolanaEnv :=
  ⟨fun _ => none, fun _ => .ok none, fun _ => .ok 0⟩

/-- An environment whose `getAccountInfo` throws a (transient network)
error on every attempt. -/
def flakyEnv : SolanaEnv :=
  ⟨fun m => some m, fun _ => .error 7, fun _ => .ok 0⟩

/-- An environment whose metadata account is absent (NotFound). -/
def absentEnv : SolanaEnv :=
  ⟨fun m => some m, fun _ => .ok none, fun _ => .ok 0⟩

/-- An environment that serves `witnessAccountBytes` for the metadata
account. -/
def witnessEnv : SolanaEnv :=
  ⟨fun m => some m, fun _ => .ok (some witnessAccountBytes), fun _ => .ok 0⟩

/-- The checkpoint saved by a fresh 2-record all-updated run with
`batchSize = 2` and `checkpointInterval = 1`. -/
def c8witnessCkpt : Checkpoint := ⟨1, [[1], [2]], ⟨2, 2, 0, 0⟩⟩

/-- Count of results with status `updated` and a transaction signature
present — the set of results the spec says are charged the average fee. -/
def countUpdatedWithSig (results : List ProcessResult) : Nat :=
  results.countP
    (fun r => decide (r.status = RStatus.updated ∧ r.transactionSignature ≠ none))

/-! # Theorems -/

/-! ## RetryExecutor lemmas -/

lemma retryGo_calls_le {E T : Type} (fn : Nat → Except E T) (d : Nat) :
    ∀ remaining attempt, (retryGo fn d attempt remaining).calls ≤ remaining + 1 := by
  intro remaining
  induction remaining with
  | zero =>
    intro attempt
    cases hfa : fn attempt <;> simp [retryGo, hfa]
  | succ n ih =>
    intro attempt
    cases hfa : fn attempt with
    | ok v => simp [retryGo, hfa]
    | error e =>
      simp only [retryGo, hfa]
      have := ih (attempt + 1)
      omega

lemma retryGo_allFail {E T : Type} (fn : Nat → Except E T) (d : Nat) :
    ∀ remaining attempt,
      (∀ a, attempt ≤ a → a ≤ attempt + remaining → isError (fn a) = true) →
      (retryGo fn d attempt remaining).result = fn (attempt + remaining)
      ∧ (retryGo fn d attempt remaining).calls = remaining + 1
      ∧ (retryGo fn d attempt remaining).totalDelay
          = d * (2 ^ (attempt + remaining) - 2 ^ attempt) := by
  intro remaining
  induction remaining with
  | zero =>
    intro attempt h
    have h0 := h attempt le_rfl (by omega)
    cases hfa : fn attempt with
    | ok v => rw [hfa] at h0; simp [isError] at h0
    | error e => simp [retryGo, hfa]
  | succ n ih =>
    intro attempt h
    have h0 := h attempt le_rfl (by omega)
    cases hfa : fn attempt with
    | ok v => rw [hfa] at h0; simp [isError] at h0
    | error e =>
      have ihh := ih (attempt + 1) (fun a h1 h2 => h a (by omega) (by omega))
      simp only [retryGo, hfa]
      refine ⟨?_, ?_, ?_⟩
      · rw [ihh.1]; congr 1; omega
      · rw [ihh.2.1]
      · rw [ihh.2.2]
        have h1 : 2 ^ attempt + 2 ^ attempt = 2 ^ (attempt + 1) := by
          rw [pow_succ]; ring
        have h2 : 2 ^ (attempt + 1) ≤ 2 ^ (attempt + 1 + n) :=
          Nat.pow_le_pow_right (by norm_num) (by omega)
        have key : 2 ^ (attempt + 1 + n) - 2 ^ (attempt + 1) + 2 ^ attempt
            = 2 ^ (attempt + (n + 1)) - 2 ^ attempt := by
          have h3 : attempt + 1 + n = attempt + (n + 1) := by omega
          rw [h3] at h2 ⊢
          generalize 2 ^ (attempt + (n + 1)) = P at h2 ⊢
          generalize 2 ^ (attempt + 1) = Q at h1 h2 ⊢
          generalize 2 ^ attempt = A at h1 ⊢
          omega
        calc d * (2 ^ (attempt + 1 + n) - 2 ^ (attempt + 1)) + d * 2 ^ attempt
            = d * ((2 ^ (attempt + 1 + n) - 2 ^ (attempt + 1)) + 2 ^ attempt) := by
              ring
          _ = d * (2 ^ (attempt + (n + 1)) - 2 ^ attempt) := by rw [key]

lemma retryGo_firstSuccess {E T : Type} (fn : Nat → Except E T) (d : Nat) :
    ∀ remaining attempt k v, k ≤ remaining → fn (attempt + k) = .ok v →
      (∀ a, attempt ≤ a → a < attempt + k → isError (fn a) = true) →
      (retryGo fn d attempt remaining).result = .ok v
      ∧ (retryGo fn d attempt remaining).calls = k + 1
      ∧ (retryGo fn d attempt remaining).totalDelay
          = d * (2 ^ (attempt + k) - 2 ^ attempt) := by
  intro remaining
  induction remaining with
  | zero =>
    intro attempt k v hk hok _
    have hk0 : k = 0 := by omega
    subst hk0
    simp only [Nat.add_zero] at hok
    simp [retryGo, hok]
  | succ n ih =>
    intro attempt k v hk hok herr
    cases k with
    | zero =>
      simp only [Nat.add_zero] at hok
      simp [retryGo, hok]
    | succ k =>
      have h0 := herr attempt le_rfl (by omega)
      cases hfa : fn attempt with
      | ok w => rw [hfa] at h0; simp [isError] at h0
      | error e =>
        have ihh := ih (attempt + 1) k v (by omega)
          (by rw [show attempt + 1 + k = attempt + (k + 1) by omega]; exact hok)
          (fun a h1 h2 => herr a (by omega) (by omega))
        simp only [retryGo, hfa]
        refine ⟨ihh.1, by rw [ihh.2.1], ?_⟩
        rw [ihh.2.2]
        have h1 : 2 ^ attempt + 2 ^ attempt = 2 ^ (attempt + 1) := by
          rw [pow_succ]; ring
        have h2 : 2 ^ (attempt + 1) ≤ 2 ^ (attempt + 1 + k) :=
          Nat.pow_le_pow_right (by norm_num) (by omega)
        have key : 2 ^ (attempt + 1 + k) - 2 ^ (attempt + 1) + 2 ^ attempt
            = 2 ^ (attempt + (k + 1)) - 2 ^ attempt := by
          have h3 : attempt + 1 + k = attempt + (k + 1) := by omega
          rw [h3] at h2 ⊢
          generalize 2 ^ (attempt + (k + 1)) = P at h2 ⊢
          generalize 2 ^ (attempt + 1) = Q at h1 h2 ⊢
          generalize 2 ^ attempt = A at h1 ⊢
          omega
        calc d * (2 ^ (attempt + 1 + k) - 2 ^ (attempt + 1)) + d * 2 ^ attempt
            = d * ((2 ^ (attempt + 1 + k) - 2 ^ (attempt + 1)) + 2 ^ attempt) := by
              ring
          _ = d * (2 ^ (attempt + (k + 1)) - 2 ^ attempt) := by rw [key]

/-- C3: `retryWithBackoff fn r d` invokes `fn` at most `r + 1` times; if all
`r + 1` attempts fail it returns the final attempt's error unchanged after a
total backoff delay of `d * (2^0 + ... + 2^(r-1)) = d * (2^r - 1)`; and the
first success, say at attempt `k`, is returned with exactly `k + 1`
invocations and no further ones. -/
theorem C3_retryWithBackoff {E T : Type} (fn : Nat → Except E T) (r d : Nat) :
    (retryWithBackoff fn r d).calls ≤ r + 1
    ∧ ((∀ a, a ≤ r → isError (fn a) = true) →
        (retryWithBackoff fn r d).result = fn r
        ∧ (retryWithBackoff fn r d).calls = r + 1
        ∧ (retryWithBackoff fn r d).totalDelay = d * (2 ^ r - 1))
    ∧ (∀ k v, k ≤ r → fn k = .ok v → (∀ a, a < k → isError (fn a) = true) →
        (retryWithBackoff fn r d).result = .ok v
        ∧ (retryWithBackoff fn r d).calls = k + 1
        ∧ (retryWithBackoff fn r d).totalDelay = d * (2 ^ k - 1)) := by
  unfold retryWithBackoff
  refine ⟨retryGo_calls_le fn d r 0, ?_, ?_⟩
  · intro h
    have hall := retryGo_allFail fn d r 0 (fun a _ h2 => h a (by omega))
    simpa using hall
  · intro k v hk hfk herr
    have hfs := retryGo_firstSuccess fn d r 0 k v hk (by simpa using hfk)
      (fun a _ h2 => herr a (by omega))
    simpa using hfs

/-- Witness for C3: a concrete operation failing on attempts 0 and 1 and
succeeding on attempt 2, run with budget `maxRetries = 3`, `baseDelay = 5`. -/
theorem C3_retryWithBackoff_witness :
    (retryWithBackoff retryWitnessFn 3 5).result = .ok 7
    ∧ (retryWithBackoff retryWitnessFn 3 5).calls = 3
    ∧ (retryWithBackoff retryWitnessFn 3 5).totalDelay = 5 * (2 ^ 2 - 1) := by
  have h := (C3_retryWithBackoff retryWitnessFn 3 5).2.2 2 7 (by decide)
    (by rfl) (by decide)
  exact ⟨h.1, h.2.1, h.2.2⟩

/-! ## UpdateEngine lemmas -/

/-- The retry wrapper around `fetchCurrentMetadata` always succeeds on its
first invocation, because `fetchCurrentMetadata` converts every internal
error into `null` before `retryWithBackoff` can see a failure. -/
lemma fetchRun_eval (g : Nat → Except Nat (Option Bytes)) (r d : Nat) :
    retryWithBackoff
        (fun attempt =>
          (.ok (fetchCurrentMetadata g attempt) : Except Nat (Option ChainMeta)))
        r d
      = ⟨.ok (fetchCurrentMetadata g 0), 1, 0⟩ := by
  cases r <;> rfl

/-- C2 counterexample: with an unparsable mint, `updateNFTMetadata` does not
return an `UpdateOutcome` — the exception from `new PublicKey(metadata.mint)`
(raised before the try block) escapes the function. -/
theorem C2_cex_unparsable_mint_throws :
    (updateNFTMetadata badMintEnv [] ⟨[5], [], [], []⟩ false 3 10).result
      = .error () := rfl

/-- C2 (amended): for every record whose mint string parses as a public key,
`updateNFTMetadata` never throws — it resolves with a `ProcessResult` for
that mint, and whenever the status is `error` a reason is attached. -/
theorem C2_update_no_throw (env : SolanaEnv) (walletPub : Bytes)
    (md : NFTMetadata) (dryRun : Bool) (r d : Nat) (k : Bytes)
    (hparse : env.parsePubKey md.mint = some k) :
    ∃ pr, (updateNFTMetadata env walletPub md dryRun r d).result = .ok pr
      ∧ pr.mint = md.mint
      ∧ (pr.status = RStatus.errored → pr.error ≠ none) := by
  cases hf : fetchCurrentMetadata env.getAccountInfo 0 with
  | none =>
    unfold updateNFTMetadata
    simp only [hparse, fetchRun_eval, hf]
    exact ⟨_, rfl, rfl, fun _ => by simp⟩
  | some current =>
    unfold updateNFTMetadata
    simp only [hparse, fetchRun_eval, hf]
    by_cases hauth : current.updateAuthority ≠ walletPub
    · rw [if_pos hauth]
      exact ⟨_, rfl, rfl, fun _ => by simp⟩
    · rw [if_neg hauth]
      by_cases hdiff : isMetadataDifferent current md = true
      · rw [if_neg (by simp [hdiff])]
        cases dryRun with
        | true =>
          rw [if_pos rfl]
          exact ⟨_, rfl, rfl, fun h => nomatch h⟩
        | false =>
          rw [if_neg (by simp)]
          cases hs : (retryWithBackoff env.sendTx r d).result with
          | error e => exact ⟨_, rfl, rfl, fun _ => by simp⟩
          | ok sig => exact ⟨_, rfl, rfl, fun h => nomatch h⟩
      · rw [if_pos hdiff]
        exact ⟨_, rfl, rfl, fun h => nomatch h⟩

/-- Witness for C2 (amended) at a concrete environment whose mint parses. -/
theorem C2_update_no_throw_witness :
    witnessEnv.parsePubKey [5] = some [5]
    ∧ ∃ pr, (updateNFTMetadata witnessEnv [] ⟨[5], [], [], []⟩ false 3 10).result
        = .ok pr
      ∧ pr.mint = [5]
      ∧ (pr.status = RStatus.errored → pr.error ≠ none) :=
  ⟨rfl, C2_update_no_throw witnessEnv [] ⟨[5], [], [], []⟩ false 3 10 [5] rfl⟩

/-- C4: a transient network error thrown by `getAccountInfo` is swallowed by
`fetchCurrentMetadata`'s internal try/catch (which returns `null`), so the
retry wrapper sees a success and `fetchCurrentMetadata` is invoked exactly
once — not `maxRetries + 1 = 4` times — before the record gets its
`Failed` outcome.  The last conjunct shows the same always-throwing
operation WOULD be invoked 4 times had its error reached `retryWithBackoff`.
The NotFound half of the claim behaves identically (one fetch, immediate
`Failed`). -/
theorem C4_fetch_error_not_retried :
    (updateNFTMetadata flakyEnv [] ⟨[5], [], [], []⟩ false 3 10).fetchCalls = 1
    ∧ (updateNFTMetadata flakyEnv [] ⟨[5], [], [], []⟩ false 3 10).result
        = .ok { mint := [5], status := .errored, error := some .fetchFailed }
    ∧ (updateNFTMetadata absentEnv [] ⟨[5], [], [], []⟩ false 3 10).fetchCalls = 1
    ∧ (updateNFTMetadata absentEnv [] ⟨[5], [], [], []⟩ false 3 10).result
        = .ok { mint := [5], status := .errored, error := some .fetchFailed }
    ∧ (retryWithBackoff (fun _ => (.error 7 : Except Nat (Option Bytes))) 3 10).calls
        = 4 := by
  refine ⟨rfl, rfl, rfl, rfl, rfl⟩

/-- C5: whenever the fetched record's update authority differs from the
caller's public key, `updateNFTMetadata` performs no submission, does not
retry, and immediately returns an error outcome whose reason records both
the expected and the found identity. -/
theorem C5_authority_gate (env : SolanaEnv) (walletPub : Bytes)
    (md : NFTMetadata) (dryRun : Bool) (r d : Nat) (k : Bytes)
    (current : ChainMeta)
    (hparse : env.parsePubKey md.mint = some k)
    (hfetch : fetchCurrentMetadata env.getAccountInfo 0 = some current)
    (hauth : current.updateAuthority ≠ walletPub) :
    updateNFTMetadata env walletPub md dryRun r d
      = ⟨.ok { mint := md.mint, status := .errored,
               error := some (.authorityMismatch walletPub
                 current.updateAuthority) }, 1, 0⟩ := by
  unfold updateNFTMetadata
  simp only [hparse, fetchRun_eval, hfetch]
  rw [if_pos hauth]

/-- Witness for C5: a wallet whose key is not the account's authority. -/
theorem C5_authority_gate_witness :
    updateNFTMetadata witnessEnv [9] ⟨[5], [97], [98], [99, 100]⟩ false 3 10
      = ⟨.ok { mint := [5], status := .errored,
               error := some (.authorityMismatch [9] (List.replicate 32 1)) },
         1, 0⟩ :=
  C5_authority_gate witnessEnv [9] ⟨[5], [97], [98], [99, 100]⟩ false 3 10
    [5] ⟨[97], [98], [99, 100], List.replicate 32 1⟩ rfl (by decide) (by decide)

/-- C7: with `dryRun = true`, once fetch and authorization succeed, no
submission is ever performed; the outcome is a simulated `updated` result
with old/new values populated exactly when `isMetadataDifferent` detects a
difference, and `skipped` otherwise. -/
theorem C7_dry_run_purity (env : SolanaEnv) (walletPub : Bytes)
    (md : NFTMetadata) (r d : Nat) (k : Bytes) (current : ChainMeta)
    (hparse : env.parsePubKey md.mint = some k)
    (hfetch : fetchCurrentMetadata env.getAccountInfo 0 = some current)
    (hauth : current.updateAuthority = walletPub) :
    (updateNFTMetadata env walletPub md true r d).submitCalls = 0
    ∧ (isMetadataDifferent current md = true →
        updateNFTMetadata env walletPub md true r d
          = ⟨.ok { mint := md.mint, status := .updated,
                   action := some "dry run - would update",
                   oldValues := some ⟨current.name, current.symbol, current.uri⟩,
                   newValues := some ⟨md.name, md.symbol, md.uri⟩ }, 1, 0⟩)
    ∧ (isMetadataDifferent current md = false →
        updateNFTMetadata env walletPub md true r d
          = ⟨.ok { mint := md.mint, status := .skipped,
                   action := some "metadata already matches" }, 1, 0⟩) := by
  unfold updateNFTMetadata
  simp only [hparse, fetchRun_eval, hfetch]
  rw [if_neg (by simp [hauth])]
  by_cases hdiff : isMetadataDifferent current md = true
  · rw [if_neg (by simp [hdiff]), if_pos trivial]
    exact ⟨rfl, fun _ => rfl, fun h => absurd hdiff (by simp [h])⟩
  · rw [if_pos hdiff]
    exact ⟨rfl, fun h => absurd h hdiff, fun _ => rfl⟩

/-- Witness for C7: dry run against the concrete served account, once with a
differing target (simulated update) and once with a matching target
(skipped). -/
theorem C7_dry_run_purity_witness :
    (updateNFTMetadata witnessEnv (List.replicate 32 1)
        ⟨[5], [120], [98], [99, 100]⟩ true 3 10).submitCalls = 0
    ∧ updateNFTMetadata witnessEnv (List.replicate 32 1)
        ⟨[5], [120], [98], [99, 100]⟩ true 3 10
      = ⟨.ok { mint := [5], status := .updated,
               action := some "dry run - would update",
               oldValues := some ⟨[97], [98], [99, 100]⟩,
               newValues := some ⟨[120], [98], [99, 100]⟩ }, 1, 0⟩
    ∧ updateNFTMetadata witnessEnv (List.replicate 32 1)
        ⟨[5], [97], [98], [99, 100]⟩ true 3 10
      = ⟨.ok { mint := [5], status := .skipped,
               action := some "metadata already matches" }, 1, 0⟩ := by
  have h1 := C7_dry_run_purity witnessEnv (List.replicate 32 1)
    ⟨[5], [120], [98], [99, 100]⟩ 3 10 [5]
    ⟨[97], [98], [99, 100], List.replicate 32 1⟩ rfl (by decide) (by decide)
  have h2 := C7_dry_run_purity witnessEnv (List.replicate 32 1)
    ⟨[5], [97], [98], [99, 100]⟩ 3 10 [5]
    ⟨[97], [98], [99, 100], List.replicate 32 1⟩ rfl (by decide) (by decide)
  exact ⟨h1.1, h1.2.1 (by decide), h2.2.2 (by decide)⟩

/-! ## Cost lemmas -/

/-- C10: the total cost equals the number of results with status `updated`
that carry a transaction signature, times the hardcoded average fee
0.000005 SOL; a result that is not `updated` or has no signature (dry-run
updates, skips, failures) contributes zero, and a confirmed update
contributes exactly one fee. -/
theorem C10_total_cost :
    (∀ results, calculateTotalCost results
        = (countUpdatedWithSig results : ℚ) * avgFeePerTx)
    ∧ (∀ r rs, r.status ≠ RStatus.updated ∨ r.transactionSignature = none →
        calculateTotalCost (r :: rs) = calculateTotalCost rs)
    ∧ (∀ r rs, r.status = RStatus.updated → r.transactionSignature ≠ none →
        calculateTotalCost (r :: rs) = avgFeePerTx + calculateTotalCost rs) := by
  have hpred : ∀ r : ProcessResult,
      (r.status == RStatus.updated && r.transactionSignature.isSome)
        = decide (r.status = RStatus.updated ∧ r.transactionSignature ≠ none) := by
    intro r
    cases hs : r.status <;> cases ht : r.transactionSignature <;> simp
  refine ⟨?_, ?_, ?_⟩
  · intro results
    unfold calculateTotalCost countUpdatedWithSig
    rw [List.countP_eq_length_filter,
      List.filter_congr (fun r _ => hpred r)]
  · intro r rs h
    have hf : (r.status == RStatus.updated && r.transactionSignature.isSome)
        = false := by
      rcases h with h | h
      · simp [h]
      · simp [h]
    unfold calculateTotalCost
    rw [List.filter_cons, if_neg (by simp [hf])]
  · intro r rs h1 h2
    have hf : (r.status == RStatus.updated && r.transactionSignature.isSome)
        = true := by
      simp [h1, Option.isSome_iff_ne_none, h2]
    unfold calculateTotalCost
    rw [List.filter_cons, if_pos (by simp [hf])]
    push_cast [List.length_cons]
    ring

/-- Witness for C10: a dry-run updated result (no signature) costs nothing;
a confirmed updated result costs one average fee. -/
theorem C10_total_cost_witness :
    calculateTotalCost
        [{ mint := [1], status := .updated,
           action := some "dry run - would update" }]
      = calculateTotalCost []
    ∧ calculateTotalCost
        [{ mint := [2], status := .updated, transactionSignature := some 11 }]
      = avgFeePerTx + calculateTotalCost [] := by
  refine ⟨C10_total_cost.2.1 _ _ (Or.inr rfl),
    C10_total_cost.2.2 _ _ rfl (by simp)⟩

/-! ## RecordCodec lemmas -/

lemma toLE4_length (n : Nat) : (toLE4 n).length = 4 := rfl

lemma readUInt32LE_at (pre rest : Bytes) (n off : Nat) (hoff : off = pre.length)
    (hn : n < 4294967296) :
    readUInt32LE (pre ++ (toLE4 n ++ rest)) off = some n := by
  subst hoff
  have hlen : pre.length + 4 ≤ (pre ++ (toLE4 n ++ rest)).length := by
    simp [toLE4]
  unfold readUInt32LE
  rw [if_pos hlen, List.drop_left]
  show some (n % 256 + 256 * (n / 256 % 256) + 65536 * (n / 65536 % 256)
    + 16777216 * (n / 16777216 % 256)) = some n
  congr 1
  omega

lemma jsSlice_at (pre mid rest : Bytes) (s e : Nat) (hs : s = pre.length)
    (he : e = s + mid.length) :
    jsSlice (pre ++ (mid ++ rest)) s e = mid := by
  subst hs he
  unfold jsSlice
  rw [List.drop_left]
  have h : pre.length + mid.length - pre.length = mid.length := by omega
  rw [h, List.take_left]

lemma readUInt32LE_none (raw : Bytes) (off : Nat) (h : raw.length < off + 4) :
    readUInt32LE raw off = none := by
  unfold readUInt32LE
  rw [if_neg (by omega)]

lemma drop_four (l : Bytes) (off : Nat) (h : off + 4 ≤ l.length) :
    ∃ b0 b1 b2 b3 rest, l.drop off = b0 :: b1 :: b2 :: b3 :: rest := by
  have hlen : 4 ≤ (l.drop off).length := by
    rw [List.length_drop]; omega
  match hd : l.drop off with
  | [] => rw [hd] at hlen; simp at hlen
  | [b0] => rw [hd] at hlen; simp at hlen
  | [b0, b1] => rw [hd] at hlen; simp at hlen
  | [b0, b1, b2] => rw [hd] at hlen; simp at hlen
  | b0 :: b1 :: b2 :: b3 :: rest => exact ⟨b0, b1, b2, b3, rest, rfl⟩

lemma readUInt32LE_some (raw : Bytes) (off : Nat) (h : off + 4 ≤ raw.length) :
    ∃ v, readUInt32LE raw off = some v := by
  obtain ⟨b0, b1, b2, b3, rest, hd⟩ := drop_four raw off h
  refine ⟨b0 + 256 * b1 + 65536 * b2 + 16777216 * b3, ?_⟩
  unfold readUInt32LE
  rw [if_pos h, hd]

/-- Decoding synthetic account bytes: the authority comes back verbatim and
each string comes back with all NUL bytes removed. -/
lemma decodeMetadata_synthetic (key : Nat) (auth mintKey name symbol uri : Bytes)
    (hauth : auth.length = 32) (hmint : mintKey.length = 32)
    (hn : name.length < 4294967296) (hs : symbol.length < 4294967296)
    (hu : uri.length < 4294967296) :
    decodeMetadata (syntheticAccountBytes key auth mintKey name symbol uri)
      = some ⟨stripNul name, stripNul symbol, stripNul uri, auth⟩ := by
  have hA : jsSlice (syntheticAccountBytes key auth mintKey name symbol uri)
      1 33 = auth := by
    show (auth ++ mintKey ++ encodeString name ++ encodeString symbol
      ++ encodeString uri).take (33 - 1) = auth
    simp only [List.append_assoc]
    exact List.take_left' (by omega)
  have hRead1 : readUInt32LE (syntheticAccountBytes key auth mintKey name
      symbol uri) 65 = some name.length := by
    have he : syntheticAccountBytes key auth mintKey name symbol uri
        = (key :: (auth ++ mintKey)) ++ (toLE4 name.length
            ++ (name ++ (encodeString symbol ++ encodeString uri))) := by
      simp [syntheticAccountBytes, encodeString, List.append_assoc]
    rw [he]
    exact readUInt32LE_at _ _ _ _
      (by simp only [List.length_cons, List.length_append, hauth, hmint]) hn
  have hSlice1 : jsSlice (syntheticAccountBytes key auth mintKey name symbol
      uri) 69 (69 + name.length) = name := by
    have he : syntheticAccountBytes key auth mintKey name symbol uri
        = (key :: (auth ++ (mintKey ++ toLE4 name.length)))
            ++ (name ++ (encodeString symbol ++ encodeString uri)) := by
      simp [syntheticAccountBytes, encodeString, List.append_assoc]
    rw [he]
    exact jsSlice_at _ _ _ _ _
      (by simp only [List.length_cons, List.length_append, toLE4_length,
        hauth, hmint]) rfl
  have hRead2 : readUInt32LE (syntheticAccountBytes key auth mintKey name
      symbol uri) (69 + name.length) = some symbol.length := by
    have he : syntheticAccountBytes key auth mintKey name symbol uri
        = (key :: (auth ++ (mintKey ++ (toLE4 name.length ++ name))))
            ++ (toLE4 symbol.length ++ (symbol ++ encodeString uri)) := by
      simp [syntheticAccountBytes, encodeString, List.append_assoc]
    rw [he]
    exact readUInt32LE_at _ _ _ _
      (by simp only [List.length_cons, List.length_append, toLE4_length,
        hauth, hmint]; omega) hs
  have hSlice2 : jsSlice (syntheticAccountBytes key auth mintKey name symbol
      uri) (73 + name.length) (73 + name.length + symbol.length) = symbol := by
    have he : syntheticAccountBytes key auth mintKey name symbol uri
        = (key :: (auth ++ (mintKey ++ (toLE4 name.length
            ++ (name ++ toLE4 symbol.length)))))
            ++ (symbol ++ encodeString uri) := by
      simp [syntheticAccountBytes, encodeString, List.append_assoc]
    rw [he]
    exact jsSlice_at _ _ _ _ _
      (by simp only [List.length_cons, List.length_append, toLE4_length,
        hauth, hmint]; omega) (by omega)
  have hRead3 : readUInt32LE (syntheticAccountBytes key auth mintKey name
      symbol uri) (73 + name.length + symbol.length) = some uri.length := by
    have he : syntheticAccountBytes key auth mintKey name symbol uri
        = (key :: (auth ++ (mintKey ++ (toLE4 name.length
            ++ (name ++ (toLE4 symbol.length ++ symbol))))))
            ++ (toLE4 uri.length ++ uri) := by
      simp [syntheticAccountBytes, encodeString, List.append_assoc]
    rw [he]
    exact readUInt32LE_at _ _ _ _
      (by simp only [List.length_cons, List.length_append, toLE4_length,
        hauth, hmint]; omega) hu
  have hSlice3 : jsSlice (syntheticAccountBytes key auth mintKey name symbol
      uri) (77 + name.length + symbol.length)
      (77 + name.length + symbol.length + uri.length) = uri := by
    have he : syntheticAccountBytes key auth mintKey name symbol uri
        = (key :: (auth ++ (mintKey ++ (toLE4 name.length
            ++ (name ++ (toLE4 symbol.length
              ++ (symbol ++ toLE4 uri.length)))))))
            ++ (uri ++ []) := by
      simp [syntheticAccountBytes, encodeString, List.append_assoc]
    rw [he]
    exact jsSlice_at _ _ _ _ _
      (by simp only [List.length_cons, List.length_append, toLE4_length,
        hauth, hmint]; omega) (by omega)
  simp only [decodeMetadata, hA, hauth, hRead1, hSlice1, hRead2, hSlice2,
    hRead3, hSlice3, if_true]

/-- Removing NULs from a NUL-free core followed by NUL padding yields the
core. -/
lemma stripNul_core_pad (c p : Bytes) (hc : ∀ b ∈ c, b ≠ 0)
    (hp : ∀ b ∈ p, b = 0) : stripNul (c ++ p) = c := by
  unfold stripNul
  rw [List.filter_append]
  have h1 : c.filter (fun b => b ≠ 0) = c :=
    List.filter_eq_self.mpr (fun a ha => by simp [hc a ha])
  have h2 : p.filter (fun b => b ≠ 0) = [] := by
    simp only [List.filter_eq_nil_iff]
    intro a ha
    simp [hp a ha]
  rw [h1, h2, List.append_nil]

/-- C6: decoding synthetic account bytes built with the codec's own string
encoding (4-byte little-endian length prefix, UTF-8 bytes, no terminator)
recovers exactly the original strings with their trailing NUL padding
stripped.  Each string is given as a NUL-free core plus NUL padding, and the
lengths stay within the 32-bit limit of the length prefix. -/
theorem C6_codec_round_trip (key : Nat) (auth mintKey : Bytes)
    (nc np sc sp uc up : Bytes)
    (hauth : auth.length = 32) (hmint : mintKey.length = 32)
    (hnc : ∀ b ∈ nc, b ≠ 0) (hnp : ∀ b ∈ np, b = 0)
    (hsc : ∀ b ∈ sc, b ≠ 0) (hsp : ∀ b ∈ sp, b = 0)
    (huc : ∀ b ∈ uc, b ≠ 0) (hup : ∀ b ∈ up, b = 0)
    (hn : (nc ++ np).length < 4294967296)
    (hs : (sc ++ sp).length < 4294967296)
    (hu : (uc ++ up).length < 4294967296) :
    decodeMetadata (syntheticAccountBytes key auth mintKey
        (nc ++ np) (sc ++ sp) (uc ++ up))
      = some ⟨nc, sc, uc, auth⟩ := by
  rw [decodeMetadata_synthetic key auth mintKey _ _ _ hauth hmint hn hs hu,
    stripNul_core_pad nc np hnc hnp, stripNul_core_pad sc sp hsc hsp,
    stripNul_core_pad uc up huc hup]

/-- Witness for C6: a concrete round trip with NUL-padded name and uri. -/
theorem C6_codec_round_trip_witness :
    decodeMetadata (syntheticAccountBytes 4 (List.replicate 32 1)
        (List.replicate 32 2) ([104, 105] ++ [0, 0]) ([72] ++ [])
        ([117, 114] ++ [0]))
      = some ⟨[104, 105], [72], [117, 114], List.replicate 32 1⟩ :=
  C6_codec_round_trip 4 (List.replicate 32 1) (List.replicate 32 2)
    [104, 105] [0, 0] [72] [] [117, 114] [0]
    (by decide) (by decide) (by decide) (by decide) (by decide) (by decide)
    (by decide) (by decide) (by decide) (by decide) (by decide)

/-- C9 counterexample: `decodeShortRaw` is one byte shorter than the final
offset computed from the layout (its uri length prefix, read at offset 75,
declares 2 bytes, so the layout extends to offset 81, but only 80 bytes are
present) — yet decode silently returns a record with a truncated uri instead
of failing. -/
theorem C9_cex_truncated_uri_decodes :
    decodeMetadata decodeShortRaw
      = some ⟨[97], [98], [99], List.replicate 32 1⟩
    ∧ readUInt32LE decodeShortRaw 75 = some 2
    ∧ decodeShortRaw.length = 80 := by decide

/-- C9 (amended): decode fails exactly when `raw` is too short for the fixed
header plus one of the three 4-byte length prefixes — that is, shorter than
69 (name-length read), shorter than `73 + nameLen` (symbol-length read), or
shorter than `77 + nameLen + symbolLen` (uri-length read).  A `raw` covering
all three length prefixes decodes successfully even when the string bodies
are truncated, because `Buffer.slice` clamps silently. -/
theorem C9_decode_failure_characterisation (raw : Bytes) :
    decodeMetadata raw = none ↔
      raw.length < 69
      ∨ raw.length < 73 + (readUInt32LE raw 65).getD 0
      ∨ raw.length < 77 + (readUInt32LE raw 65).getD 0
          + (readUInt32LE raw (69 + (readUInt32LE raw 65).getD 0)).getD 0 := by
  rcases Nat.lt_or_ge raw.length 69 with h69 | h69
  · have hnone : decodeMetadata raw = none := by
      simp only [decodeMetadata, readUInt32LE_none raw 65 (by omega), ite_self]
    rw [hnone]
    exact iff_of_true rfl (Or.inl h69)
  · have hauth32 : (jsSlice raw 1 33).length = 32 := by
      simp only [jsSlice, List.length_take, List.length_drop]
      omega
    obtain ⟨nl, hnl⟩ := readUInt32LE_some raw 65 (by omega)
    have hgd1 : (readUInt32LE raw 65).getD 0 = nl := by rw [hnl]; rfl
    rw [hgd1]
    rcases Nat.lt_or_ge raw.length (73 + nl) with h73 | h73
    · have hnone : decodeMetadata raw = none := by
        simp only [decodeMetadata, hauth32, if_true, hnl,
          readUInt32LE_none raw (69 + nl) (by omega)]
      rw [hnone]
      exact iff_of_true rfl (Or.inr (Or.inl h73))
    · obtain ⟨sl, hsl⟩ := readUInt32LE_some raw (69 + nl) (by omega)
      have hgd2 : (readUInt32LE raw (69 + nl)).getD 0 = sl := by rw [hsl]; rfl
      rw [hgd2]
      rcases Nat.lt_or_ge raw.length (77 + nl + sl) with h77 | h77
      · have hnone : decodeMetadata raw = none := by
          simp only [decodeMetadata, hauth32, if_true, hnl, hsl,
            readUInt32LE_none raw (73 + nl + sl) (by omega)]
        rw [hnone]
        exact iff_of_true rfl (Or.inr (Or.inr h77))
      · obtain ⟨ul, hul⟩ := readUInt32LE_some raw (73 + nl + sl) (by omega)
        have hsome : decodeMetadata raw
            = some ⟨stripNul (jsSlice raw 69 (69 + nl)),
                stripNul (jsSlice raw (73 + nl) (73 + nl + sl)),
                stripNul (jsSlice raw (77 + nl + sl) (77 + nl + sl + ul)),
                jsSlice raw 1 33⟩ := by
          simp only [decodeMetadata, hauth32, if_true, hnl, hsl, hul]
        rw [hsome]
        refine iff_of_false (by simp) ?_
        push_neg
        exact ⟨by omega, by omega, by omega⟩

/-! ## BatchOrchestrator lemmas -/

lemma tallyResults_processedCount :
    ∀ (rs : List (Bytes × RStatus)) (st : RunState),
      (tallyResults st rs).processedCount = st.processedCount + rs.length := by
  intro rs
  induction rs with
  | nil => intro st; simp [tallyResults]
  | cons r rs ih =>
    intro st
    have h := ih (tallyResult st r)
    simp only [tallyResults, List.foldl_cons] at h ⊢
    rw [h]
    show st.processedCount + 1 + rs.length = st.processedCount + (rs.length + 1)
    omega

lemma tallyResults_processedMints :
    ∀ (rs : List (Bytes × RStatus)) (st : RunState),
      (tallyResults st rs).processedMints
        = st.processedMints ++ rs.map Prod.fst := by
  intro rs
  induction rs with
  | nil => intro st; simp [tallyResults]
  | cons r rs ih =>
    intro st
    have h := ih (tallyResult st r)
    simp only [tallyResults, List.foldl_cons] at h ⊢
    rw [h]
    show (st.processedMints ++ [r.1]) ++ rs.map Prod.fst
      = st.processedMints ++ (r.1 :: rs.map Prod.fst)
    simp

lemma tallyResults_savedCheckpoints :
    ∀ (rs : List (Bytes × RStatus)) (st : RunState),
      (tallyResults st rs).savedCheckpoints = st.savedCheckpoints := by
  intro rs
  induction rs with
  | nil => intro st; simp [tallyResults]
  | cons r rs ih =>
    intro st
    have h := ih (tallyResult st r)
    simp only [tallyResults, List.foldl_cons] at h ⊢
    exact h

lemma processBatch_map_fst (o : Bytes → RStatus) (batch : List Bytes) :
    (processBatch o batch).map Prod.fst = batch := by
  induction batch with
  | nil => rfl
  | cons b bs ih =>
    simp only [processBatch, List.map_cons] at ih ⊢
    rw [ih]

lemma processBatch_length (o : Bytes → RStatus) (batch : List Bytes) :
    (processBatch o batch).length = batch.length := by
  simp [processBatch]

lemma maybeSaveCheckpoint_processedCount (si iv : Nat) (st : RunState) :
    (maybeSaveCheckpoint si iv st).processedCount = st.processedCount := by
  unfold maybeSaveCheckpoint
  split <;> rfl

lemma maybeSaveCheckpoint_processedMints (si iv : Nat) (st : RunState) :
    (maybeSaveCheckpoint si iv st).processedMints = st.processedMints := by
  unfold maybeSaveCheckpoint
  split <;> rfl

lemma maybeSaveCheckpoint_saved (si iv : Nat) (st : RunState) :
    (maybeSaveCheckpoint si iv st).savedCheckpoints
      = if 0 < iv ∧ st.processedCount % iv = 0 then
          st.savedCheckpoints ++ [mkCheckpoint si st]
        else st.savedCheckpoints := by
  unfold maybeSaveCheckpoint
  by_cases h : 0 < iv ∧ st.processedCount % iv = 0
  · rw [if_pos h, if_pos h]
  · rw [if_neg h, if_neg h]

lemma take_cons_take (m : Bytes) (rest : List Bytes) (k : Nat) :
    (m :: rest).take ((m :: rest.take k).length) = m :: rest.take k := by
  simp only [List.length_cons, List.take_succ_cons]
  congr 1
  rw [List.length_take]
  exact List.take_eq_take.mpr (by omega)

/-- Every checkpoint the batch loop saves (beyond those already in the
starting state) corresponds to a batch boundary: it was saved after some
prefix of `j` records with `(processedCount + j)` divisible by the interval,
and its fields are determined by that prefix. -/
lemma runChunksGo_saved (outcome : Bytes → RStatus) (si bs iv : Nat) :
    ∀ fuel metadata (st : RunState) c,
      c ∈ (runChunksGo outcome si bs iv fuel metadata st).savedCheckpoints →
      c ∈ st.savedCheckpoints ∨
      ∃ j, 0 < j ∧ j ≤ metadata.length
        ∧ 0 < iv ∧ (st.processedCount + j) % iv = 0
        ∧ c.summary.processed = st.processedCount + j
        ∧ c.lastProcessedIndex = si + (st.processedCount + j) - 1
        ∧ c.processedMints = st.processedMints ++ metadata.take j := by
  intro fuel
  induction fuel with
  | zero =>
    intro metadata st c hc
    cases metadata with
    | nil => exact Or.inl (by simpa [runChunksGo] using hc)
    | cons m rest => exact Or.inl (by simpa [runChunksGo] using hc)
  | succ fuel ih =>
    intro metadata st c hc
    cases metadata with
    | nil => exact Or.inl (by simpa [runChunksGo] using hc)
    | cons m rest =>
      simp only [runChunksGo] at hc
      set st1 := tallyResults st (processBatch outcome (m :: rest.take (bs - 1)))
        with hst1
      set st2 := maybeSaveCheckpoint si iv st1 with hst2
      have hpc1 : st1.processedCount
          = st.processedCount + (m :: rest.take (bs - 1)).length := by
        rw [hst1, tallyResults_processedCount, processBatch_length]
      have hpm1 : st1.processedMints
          = st.processedMints ++ (m :: rest.take (bs - 1)) := by
        rw [hst1, tallyResults_processedMints, processBatch_map_fst]
      rcases ih (rest.drop (bs - 1)) st2 c hc with hmem |
        ⟨j', hj1, hj2, hiv, hmod, hsum, hlast, hpm⟩
      · rw [hst2, maybeSaveCheckpoint_saved] at hmem
        by_cases hcond : 0 < iv ∧ st1.processedCount % iv = 0
        · rw [if_pos hcond] at hmem
          rcases List.mem_append.mp hmem with hmem1 | hmem2
          · left
            rwa [hst1, tallyResults_savedCheckpoints] at hmem1
          · right
            have hceq : c = mkCheckpoint si st1 := by simpa using hmem2
            refine ⟨(m :: rest.take (bs - 1)).length, by simp, ?_, hcond.1,
              ?_, ?_, ?_, ?_⟩
            · simp only [List.length_cons, List.length_take]
              omega
            · have h := hcond.2
              rwa [hpc1] at h
            · rw [hceq]
              show st1.processedCount = st.processedCount + _
              exact hpc1
            · rw [hceq]
              show si + st1.processedCount - 1 = si + (st.processedCount + _) - 1
              rw [hpc1]
            · rw [hceq]
              show st1.processedMints = st.processedMints ++ _
              rw [hpm1, take_cons_take]
        · rw [if_neg hcond] at hmem
          left
          rwa [hst1, tallyResults_savedCheckpoints] at hmem
      · right
        have hpc2 : st2.processedCount
            = st.processedCount + (m :: rest.take (bs - 1)).length := by
          rw [hst2, maybeSaveCheckpoint_processedCount, hpc1]
        have hpm2 : st2.processedMints
            = st.processedMints ++ (m :: rest.take (bs - 1)) := by
          rw [hst2, maybeSaveCheckpoint_processedMints, hpm1]
        have hdl : (rest.drop (bs - 1)).length = rest.length - (bs - 1) :=
          List.length_drop _ _
        rw [hdl] at hj2
        refine ⟨(m :: rest.take (bs - 1)).length + j', by omega, ?_, hiv,
          ?_, ?_, ?_, ?_⟩
        · simp only [List.length_cons, List.length_take]
          omega
        · rw [hpc2] at hmod
          rwa [← Nat.add_assoc]
        · rw [hsum, hpc2, Nat.add_assoc]
        · rw [hlast, hpc2, Nat.add_assoc]
        · rw [hpm, hpm2, List.append_assoc]
          congr 1
          have hblt : bs - 1 < rest.length := by omega
          have hbl2 : (m :: rest.take (bs - 1)).length = bs - 1 + 1 := by
            simp only [List.length_cons, List.length_take]
            omega
          rw [hbl2, show bs - 1 + 1 + j' = (bs - 1 + j') + 1 by omega,
            List.take_succ_cons, List.cons_append]
          congr 1
          exact (List.take_add rest (bs - 1) j').symm

/-- C8 (amended): checkpoints are saved only at batch boundaries where the
cumulative processed count is divisible by `checkpointInterval` (not after
every `checkpointInterval`-th record); every saved checkpoint satisfies
`lastProcessedIndex = startIndex + summary.processed - 1`, and its
`processedMints` are exactly the records processed so far in the CURRENT
run — ids of records processed before a resume are not included. -/
theorem C8_checkpoint_invariants (outcome : Bytes → RStatus)
    (startIndex batchSize interval : Nat) (metadata : List Bytes)
    (prev : CkptSummary) (c : Checkpoint)
    (hc : c ∈ (runChunks outcome startIndex batchSize interval metadata
        (initState prev)).savedCheckpoints) :
    0 < interval
    ∧ c.summary.processed % interval = 0
    ∧ 0 < c.summary.processed
    ∧ c.lastProcessedIndex = startIndex + c.summary.processed - 1
    ∧ c.processedMints = metadata.take c.summary.processed := by
  rcases runChunksGo_saved outcome startIndex batchSize interval
      metadata.length metadata (initState prev) c hc with hmem |
    ⟨j, hj1, hj2, hiv, hmod, hsum, hlast, hpm⟩
  · simp [initState] at hmem
  · have h0 : (initState prev).processedCount = 0 := rfl
    rw [h0, Nat.zero_add] at hmod hsum hlast
    refine ⟨hiv, by rw [hsum]; exact hmod, by omega,
      by rw [hsum]; exact hlast, ?_⟩
    rw [hpm, hsum]
    simp [initState]

/-- Witness for C8 (amended): the checkpoint saved by a fresh 2-record run
with `batchSize = 2`, `checkpointInterval = 1`. -/
theorem C8_checkpoint_invariants_witness :
    0 < 1
    ∧ c8witnessCkpt.summary.processed % 1 = 0
    ∧ 0 < c8witnessCkpt.summary.processed
    ∧ c8witnessCkpt.lastProcessedIndex
        = 0 + c8witnessCkpt.summary.processed - 1
    ∧ c8witnessCkpt.processedMints
        = ([[1], [2]] : List Bytes).take c8witnessCkpt.summary.processed :=
  C8_checkpoint_invariants (fun _ => RStatus.updated) 0 2 1 [[1], [2]]
    ⟨0, 0, 0, 0⟩ c8witnessCkpt (by decide)

/-- C8 counterexample: (a) with `checkpointInterval = 1` and `batchSize = 2`,
two processed records trigger only ONE save (saves happen per batch, not per
record); (b) in a resumed run (checkpoint listing mint `[1]` as already
processed), the newly saved checkpoint's `processedMints` is `[[3]]` — it
omits mint `[1]`, whose outcome was logged before the resume, so
`processedIds` is not the set of all ids logged in the overall run. -/
theorem C8_cex_checkpoint_saves :
    ((mainRun (fun _ => RStatus.updated) [[1], [2]] false none 2
        1).state.savedCheckpoints).length = 1
    ∧ (mainRun (fun _ => RStatus.updated) [[1], [2], [3]] true
        (some ⟨0, [[1]], ⟨1, 1, 0, 0⟩⟩) 1 1).state.savedCheckpoints
      = [⟨1, [[3]], ⟨1, 2, 0, 0⟩⟩] := by
  decide

/-- C1: the resume path is broken — after filtering out the checkpoint's
`processedMints`, `main` ADDITIONALLY slices the filtered list from
`startIndex = lastProcessedIndex + 1`, silently dropping unprocessed
records.  Concretely: a 2-record manifest whose first run (interrupted after
k = 1 records) saved exactly the checkpoint `⟨0, [[1]], ⟨1,1,0,0⟩⟩`; the
resumed run processes 0 records (not N − k = 1; mint `[2]` is never
processed) and ends with tallies (0 processed, 1 updated), while the
uninterrupted run processes 2 records and ends with (2 processed,
2 updated). -/
theorem C1_resume_drops_records :
    (runChunks (fun _ => RStatus.updated) 0 1 1 [[1]]
        (initState ⟨0, 0, 0, 0⟩)).savedCheckpoints
      = [⟨0, [[1]], ⟨1, 1, 0, 0⟩⟩]
    ∧ (mainRun (fun _ => RStatus.updated) [[1], [2]] true
        (some ⟨0, [[1]], ⟨1, 1, 0, 0⟩⟩) 1 1).state
      = ⟨0, 1, 0, 0, [], [], []⟩
    ∧ (mainRun (fun _ => RStatus.updated) [[1], [2]] false none 1 1).state
      = ⟨2, 2, 0, 0, [[1], [2]], [],
          [⟨0, [[1]], ⟨1, 1, 0, 0⟩⟩, ⟨1, [[1], [2]], ⟨2, 2, 0, 0⟩⟩]⟩ := by
  decide

end MetadataScript
